import Mathlib

/-!
Shallow embedding of `src/session/session-model.ts` (slack-poker-planner).

The module keeps an in-memory map of sessions (`sessions`), a registry of
pending debounced persistence timeouts (`persistTimeouts`), a debounced
`persist` task, synchronous `findById`/`upsert`, an immediate `remove`,
a startup `restore`, and a periodic expiration sweeper.

JavaScript objects used as string-keyed dictionaries are embedded as
association lists with last-binding insertion (`insertL`), lookup
(`lookupL`) and deletion (`eraseL`).  Node timers are embedded explicitly:
a `Timer` records its handle (`tid`), the session id the scheduled
`persist` call will receive, and its fire time; `clearTimeout` removes the
timer from the active set.  Backend I/O (sqlite / redis) is embedded as
event logs inside the state, with failure injection flags standing for a
backend call that rejects; an operation's `Option Backend` result is the
exception (if any) that propagates to the operation's caller.
-/

namespace SessionModel

/-- A session record (`ISession`): the core only reads `id` and
`expiresAt` (epoch milliseconds); all other fields are opaque, modelled
as a single `payload` string. -/
structure ISession where
  id : String
  expiresAt : Int
  payload : String
deriving DecidableEq, Repr

/-- Association-list lookup: first binding wins, like property lookup on a
JS object (which has unique keys). -/
def lookupL {α : Type} : List (String × α) → String → Option α
  | [], _ => none
  | p :: rest, k => if p.1 = k then some p.2 else lookupL rest k

/-- Deletion of a key (`delete obj[k]`). -/
def eraseL {α : Type} (m : List (String × α)) (k : String) : List (String × α) :=
  m.filter (fun p => decide (p.1 ≠ k))

/-- Insertion/update of a key (`obj[k] = v`): removes any old binding and
appends the new one, so lookup sees the latest value. -/
def insertL {α : Type} (m : List (String × α)) (k : String) (v : α) : List (String × α) :=
  eraseL m k ++ [(k, v)]

/-- Keys are pairwise distinct, as in a JS object. -/
def NodupKeys {α : Type} (m : List (String × α)) : Prop :=
  m.Pairwise (fun a b => a.1 ≠ b.1)

theorem lookupL_eraseL_self {α : Type} (m : List (String × α)) (k : String) :
    lookupL (eraseL m k) k = none := by
  induction m with
  | nil => rfl
  | cons p rest ih =>
    by_cases h : p.1 = k
    · simp [eraseL, h] at ih ⊢; exact ih
    · simp [eraseL, h, lookupL] at ih ⊢; exact ih

theorem lookupL_eraseL_ne {α : Type} (m : List (String × α)) (k k' : String)
    (h : k' ≠ k) : lookupL (eraseL m k) k' = lookupL m k' := by
  induction m with
  | nil => rfl
  | cons p rest ih =>
    by_cases hp : p.1 = k
    · have hpk : ¬ p.1 = k' := by rw [hp]; exact fun hh => h hh.symm
      rw [show eraseL (p :: rest) k = eraseL rest k by simp [eraseL, hp]]
      rw [ih]; simp [lookupL, hpk]
    · rw [show eraseL (p :: rest) k = p :: eraseL rest k by simp [eraseL, hp]]
      by_cases hpk : p.1 = k'
      · simp [lookupL, hpk]
      · simp [lookupL, hpk]; exact ih

theorem lookupL_append {α : Type} (l₁ l₂ : List (String × α)) (k : String) :
    lookupL (l₁ ++ l₂) k = ((lookupL l₁ k).rec (lookupL l₂ k) (fun v => some v)) := by
  induction l₁ with
  | nil => rfl
  | cons p rest ih =>
    by_cases hp : p.1 = k
    · simp [lookupL, hp]
    · simp [lookupL, hp]; exact ih

theorem lookupL_insertL_self {α : Type} (m : List (String × α)) (k : String) (v : α) :
    lookupL (insertL m k v) k = some v := by
  rw [insertL, lookupL_append, lookupL_eraseL_self]
  simp [lookupL]

theorem lookupL_insertL_ne {α : Type} (m : List (String × α)) (k k' : String) (v : α)
    (h : k' ≠ k) : lookupL (insertL m k v) k' = lookupL m k' := by
  rw [insertL, lookupL_append, lookupL_eraseL_ne m k k' h]
  cases hm : lookupL m k' with
  | none => simp [lookupL, Ne.symm h]
  | some w => simp

/-- Which backends are enabled (`process.env.USE_SESSION_DB`,
`process.env.USE_REDIS`) and the redis key namespace
(`process.env.REDIS_NAMESPACE`). -/
structure Config where
  useDb : Bool
  useRedis : Bool
  ns : String
deriving DecidableEq, Repr

/-- The two durable backends. -/
inductive Backend
  | db
  | redis
deriving DecidableEq, Repr

/-- `buildRedisKey`: the namespaced key for a session id. -/
def buildRedisKey (ns : String) (sessionId : String) : String :=
  ns ++ ":session:" ++ sessionId

/-- One successful backend write issued by `persist`: for redis the key is
the namespaced key and `ttl = some remainingTTL` (the `PX` argument);
for sqlite the key is the bare session id and there is no expiry. -/
structure Write where
  backend : Backend
  key : String
  value : ISession
  ttl : Option Int
  time : Int
deriving DecidableEq, Repr

/-- A pending `setTimeout(() => persist(sessionId), 1000)` timer. -/
structure Timer where
  tid : Nat
  sid : String
  fireAt : Int
deriving DecidableEq, Repr

/-- The module's state: the in-memory `sessions` map, the
`persistTimeouts` registry (id to timer handle), the set of live timers,
a fresh-handle counter, and the observable backend traffic: successful
writes, attempted deletes, and logged (swallowed) errors. -/
structure ModelState where
  sessions : List (String × ISession)
  persistTimeouts : List (String × Nat)
  timers : List Timer
  nextTid : Nat
  writes : List Write
  deleteAttempts : List (Backend × String)
  errorLog : List (Backend × String)
deriving DecidableEq, Repr

/-- The state at module load: everything empty. -/
def initState : ModelState :=
  { sessions := [], persistTimeouts := [], timers := [], nextTid := 0,
    writes := [], deleteAttempts := [], errorLog := [] }

/-- `findById`: pure lookup in the in-memory map; `undefined` becomes
`none`. -/
def findById (st : ModelState) (id : String) : Option ISession :=
  lookupL st.sessions id

/-- `upsert(session)` called at time `t`: synchronously writes the
in-memory map; if any backend is enabled, clears a pending timeout for
this id (`clearTimeout`) and schedules a fresh `persist(session.id)` one
second later, storing its handle in `persistTimeouts`. -/
def upsertOp (cfg : Config) (t : Int) (st : ModelState) (s : ISession) : ModelState :=
  let st1 := { st with sessions := insertL st.sessions s.id s }
  if cfg.useDb || cfg.useRedis then
    let timers1 :=
      match lookupL st1.persistTimeouts s.id with
      | some tid => st1.timers.filter (fun tm => decide (tm.tid ≠ tid))
      | none => st1.timers
    { st1 with
      persistTimeouts := insertL st1.persistTimeouts s.id st1.nextTid,
      timers := timers1 ++ [{ tid := st1.nextTid, sid := s.id, fireAt := t + 1000 }],
      nextTid := st1.nextTid + 1 }
  else st1

/-- `persist(sessionId)` running at time `t`.  `dbFail` / `redisFail`
inject a rejecting backend call.  Mirrors the source order: bail out when
no backend is enabled, delete the timeout-registry entry, re-read the
session from the in-memory map (abort when absent), abort when
`remainingTTL = expiresAt - now ≤ 0`, then write each enabled backend,
logging and swallowing failures (`.catch` / `try`-`catch`), so the second
component — the exception escaping `persist` — is always `none`. -/
def persistOp (cfg : Config) (t : Int) (dbFail redisFail : Bool)
    (st : ModelState) (sessionId : String) : ModelState × Option Backend :=
  if !cfg.useDb && !cfg.useRedis then (st, none)
  else
    let st1 := { st with persistTimeouts := eraseL st.persistTimeouts sessionId }
    match lookupL st1.sessions sessionId with
    | none => (st1, none)
    | some s =>
      let remainingTTL := s.expiresAt - t
      if remainingTTL ≤ 0 then (st1, none)
      else
        let st2 :=
          if cfg.useDb then
            if dbFail then { st1 with errorLog := st1.errorLog ++ [(Backend.db, sessionId)] }
            else { st1 with writes := st1.writes ++
              [{ backend := Backend.db, key := sessionId, value := s, ttl := none, time := t }] }
          else st1
        let st3 :=
          if cfg.useRedis then
            if redisFail then { st2 with errorLog := st2.errorLog ++ [(Backend.redis, sessionId)] }
            else { st2 with writes := st2.writes ++
              [{ backend := Backend.redis, key := buildRedisKey cfg.ns s.id, value := s,
                 ttl := some remainingTTL, time := t }] }
          else st2
        (st3, none)

/-- A timer firing: only a still-active handle can fire; the timer is
consumed and runs `persist` on the session id it captured. -/
def fireOp (cfg : Config) (t : Int) (tid : Nat) (dbFail redisFail : Bool)
    (st : ModelState) : ModelState :=
  match st.timers.find? (fun tm => tm.tid == tid) with
  | none => st
  | some tm =>
    let st1 := { st with timers := st.timers.filter (fun x => decide (x.tid ≠ tid)) }
    (persistOp cfg t dbFail redisFail st1 tm.sid).1

/-- `remove(id)`: synchronously deletes from the in-memory map, then
awaits the sqlite delete (no catch — a failure rejects `remove` and the
redis delete is never reached), then awaits the redis delete (no catch).
The second component is the exception propagated to `remove`'s caller. -/
def removeOp (cfg : Config) (dbFail redisFail : Bool) (st : ModelState)
    (id : String) : ModelState × Option Backend :=
  let st1 := { st with sessions := eraseL st.sessions id }
  if cfg.useDb then
    let st2 := { st1 with deleteAttempts := st1.deleteAttempts ++ [(Backend.db, id)] }
    if dbFail then (st2, some Backend.db)
    else
      if cfg.useRedis then
        let st3 := { st2 with deleteAttempts := st2.deleteAttempts ++
          [(Backend.redis, buildRedisKey cfg.ns id)] }
        if redisFail then (st3, some Backend.redis) else (st3, none)
      else (st2, none)
  else
    if cfg.useRedis then
      let st3 := { st1 with deleteAttempts := st1.deleteAttempts ++
        [(Backend.redis, buildRedisKey cfg.ns id)] }
      if redisFail then (st3, some Backend.redis) else (st3, none)
    else (st1, none)

/-- One tick of the expiration sweeper (`setInterval` body): keep exactly
the sessions with `expiresAt - now > 0`, via lodash `pickBy`. -/
def sweepStore (now : Int) (m : List (String × ISession)) : List (String × ISession) :=
  m.filter (fun p => decide (p.2.expiresAt - now > 0))

/-- An externally observable event, tagged with the real time at which it
runs on the event loop. -/
inductive Event
  | upsert (t : Int) (s : ISession)
  | remove (dbFail redisFail : Bool) (id : String)
  | fire (t : Int) (tid : Nat) (dbFail redisFail : Bool)
  | sweep (t : Int)
deriving Repr

/-- Event interpreter. -/
def step (cfg : Config) (st : ModelState) : Event → ModelState
  | Event.upsert t s => upsertOp cfg t st s
  | Event.remove df rf id => (removeOp cfg df rf st id).1
  | Event.fire t tid df rf => fireOp cfg t tid df rf st
  | Event.sweep t => { st with sessions := sweepStore t st.sessions }

/-- Run a trace from a state. -/
def run (cfg : Config) (st : ModelState) (evs : List Event) : ModelState :=
  evs.foldl (step cfg) st

/-- One backend's contribution to `restore`: iterate the fetched raw
blobs in order (`rawSessions.forEach`); a falsy entry (`none`) is
skipped, a blob on which `JSON.parse` throws (`parse` returns `none`) is
skipped inside its own `try`/`catch`, and a parsed session is inserted
under its own `id`.  `parse` stands for `JSON.parse … as ISession`. -/
def restoreRows (parse : String → Option ISession) (rows : List (Option String))
    (m : List (String × ISession)) : List (String × ISession) :=
  match rows with
  | [] => m
  | none :: rest => restoreRows parse rest m
  | some raw :: rest =>
    match parse raw with
    | none => restoreRows parse rest m
    | some s => restoreRows parse rest (insertL m s.id s)

/-- `restore()`: load the sqlite rows first (when enabled), then the
redis values fetched by the cursor scan + `mget` (when enabled), each via
`restoreRows`.  `dbRows` are the `value` columns of the `sessions` table
(`none` for a falsy row); `kvVals` are the `mget` results (`none` for a
missing key). -/
def restoreAll (cfg : Config) (parse : String → Option ISession)
    (dbRows kvVals : List (Option String))
    (m : List (String × ISession)) : List (String × ISession) :=
  let m1 := if cfg.useDb then restoreRows parse dbRows m else m
  if cfg.useRedis then restoreRows parse kvVals m1 else m1

/-- The sessions that deserialize successfully, in load order. -/
def parsedSessions (parse : String → Option ISession)
    (rows : List (Option String)) : List ISession :=
  (rows.filterMap (fun r => r)).filterMap parse

/-- The last successfully-parsed session whose id is `k`, if any. -/
def lastParsed (parse : String → Option ISession)
    (rows : List (Option String)) (k : String) : Option ISession :=
  (parsedSessions parse rows).reverse.find? (fun s => s.id == k)

theorem parsedSessions_nil (parse : String → Option ISession) :
    parsedSessions parse [] = [] := rfl

theorem parsedSessions_cons (parse : String → Option ISession)
    (row : Option String) (rest : List (Option String)) :
    parsedSessions parse (row :: rest)
      = (match row with
         | none => []
         | some raw =>
           match parse raw with
           | none => []
           | some s => [s]) ++ parsedSessions parse rest := by
  cases row with
  | none => rfl
  | some raw =>
    cases hp : parse raw with
    | none => simp [parsedSessions, List.filterMap, hp]
    | some s => simp [parsedSessions, List.filterMap, hp]

theorem restoreRows_lookup (parse : String → Option ISession)
    (rows : List (Option String)) (m : List (String × ISession)) (k : String) :
    lookupL (restoreRows parse rows m) k
      = match lastParsed parse rows k with
        | some s => some s
        | none => lookupL m k := by
  induction rows generalizing m with
  | nil => simp [restoreRows, lastParsed, parsedSessions]
  | cons row rest ih =>
    cases row with
    | none =>
      have h2 : lastParsed parse (none :: rest) k = lastParsed parse rest k := by
        simp [lastParsed, parsedSessions_cons]
      rw [show restoreRows parse (none :: rest) m = restoreRows parse rest m from rfl,
        ih, h2]
    | some raw =>
      cases hp : parse raw with
      | none =>
        have h1 : restoreRows parse (some raw :: rest) m = restoreRows parse rest m := by
          simp [restoreRows, hp]
        have h2 : lastParsed parse (some raw :: rest) k = lastParsed parse rest k := by
          simp [lastParsed, parsedSessions_cons, hp]
        rw [h1, ih, h2]
      | some s =>
        have h1 : restoreRows parse (some raw :: rest) m
            = restoreRows parse rest (insertL m s.id s) := by
          simp [restoreRows, hp]
        have h2 : lastParsed parse (some raw :: rest) k
            = match lastParsed parse rest k with
              | some s' => some s'
              | none => if s.id = k then some s else none := by
          rw [lastParsed, parsedSessions_cons]
          simp only [hp]
          rw [show (([s] ++ parsedSessions parse rest).reverse)
              = (parsedSessions parse rest).reverse ++ [s] from by simp]
          rw [List.find?_append]
          cases hl : (parsedSessions parse rest).reverse.find? (fun x => x.id == k) with
          | some s' => simp [lastParsed, hl, Option.or]
          | none =>
            by_cases hid : s.id = k
            · simp [lastParsed, hl, Option.or, List.find?, hid]
            · simp [lastParsed, hl, Option.or, List.find?, hid,
                show (s.id == k) = false from by simp [hid]]
        rw [h1, ih, h2]
        cases hl : lastParsed parse rest k with
        | some s' => rfl
        | none =>
          by_cases hid : s.id = k
          · subst hid
            simp [lookupL_insertL_self]
          · simp [hid, lookupL_insertL_ne m s.id k s (fun h => hid h.symm)]

theorem lookupL_eq_none_of_keys_ne {α : Type} (m : List (String × α)) (k : String)
    (h : ∀ q ∈ m, q.1 ≠ k) : lookupL m k = none := by
  induction m with
  | nil => rfl
  | cons p rest ih =>
    have hp : p.1 ≠ k := h p (List.mem_cons_self p rest)
    rw [show lookupL (p :: rest) k = lookupL rest k from by simp [lookupL, hp]]
    exact ih (fun q hq => h q (List.mem_cons_of_mem p hq))

theorem lookupL_sweepStore (now : Int) (m : List (String × ISession)) (k : String)
    (hnd : NodupKeys m) :
    lookupL (sweepStore now m) k
      = match lookupL m k with
        | none => none
        | some s => if now < s.expiresAt then some s else none := by
  induction m with
  | nil => rfl
  | cons p rest ih =>
    have hnd' : NodupKeys rest := (List.pairwise_cons.mp hnd).2
    have hkeys : ∀ q ∈ rest, p.1 ≠ q.1 := (List.pairwise_cons.mp hnd).1
    by_cases hlive : now < p.2.expiresAt
    · have hstep : sweepStore now (p :: rest) = p :: sweepStore now rest := by
        simp [sweepStore, hlive]
      rw [hstep]
      by_cases hk : p.1 = k
      · simp [lookupL, hk, hlive]
      · simp only [lookupL, if_neg hk]
        exact ih hnd'
    · have hstep : sweepStore now (p :: rest) = sweepStore now rest := by
        simp [sweepStore, hlive]
      rw [hstep]
      by_cases hk : p.1 = k
      · have hrest : lookupL rest k = none :=
          lookupL_eq_none_of_keys_ne rest k (fun q hq => by
            rw [← hk]; exact (hkeys q hq).symm)
        rw [ih hnd', hrest]
        simp [lookupL, hk, hlive]
      · simp only [lookupL, if_neg hk]
        exact ih hnd'

theorem lastParsed_append (parse : String → Option ISession)
    (r1 r2 : List (Option String)) (k : String) :
    lastParsed parse (r1 ++ r2) k
      = match lastParsed parse r2 k with
        | some s => some s
        | none => lastParsed parse r1 k := by
  unfold lastParsed
  rw [show parsedSessions parse (r1 ++ r2)
      = parsedSessions parse r1 ++ parsedSessions parse r2 from by
    simp [parsedSessions, List.filterMap_append]]
  rw [List.reverse_append, List.find?_append]
  cases h2 : (parsedSessions parse r2).reverse.find? (fun s => s.id == k) <;>
    simp [Option.or]

/-- With both backends enabled and an initially empty store, a restored
lookup returns the last successfully-parsed record with that id, the
relational rows loading before the key/value values. -/
theorem restoreAll_lookup (ns : String) (parse : String → Option ISession)
    (dbRows kvVals : List (Option String)) (k : String) :
    lookupL (restoreAll ⟨true, true, ns⟩ parse dbRows kvVals []) k
      = lastParsed parse (dbRows ++ kvVals) k := by
  unfold restoreAll
  simp only [if_pos]
  rw [restoreRows_lookup, restoreRows_lookup, lastParsed_append]
  cases h2 : lastParsed parse kvVals k with
  | some s => rfl
  | none =>
    cases h1 : lastParsed parse dbRows k with
    | some s => rfl
    | none => rfl

/-- Claim C2: `upsert(r)` then an immediate `findById(r.id)` returns
exactly `r`: the in-memory write is synchronous, and neither the write
path of `upsert` nor the read touches a backend (the backend write and
delete logs are unchanged by `upsert`, and `findById` is a pure lookup
of the in-memory map). -/
theorem upsert_findById_roundtrip (cfg : Config) (t : Int) (st : ModelState)
    (s : ISession) :
    findById (upsertOp cfg t st s) s.id = some s
    ∧ (upsertOp cfg t st s).writes = st.writes
    ∧ (upsertOp cfg t st s).deleteAttempts = st.deleteAttempts := by
  unfold findById upsertOp
  by_cases h : (cfg.useDb || cfg.useRedis) = true
  · simp [h, lookupL_insertL_self]
  · simp [h, lookupL_insertL_self]

/-- Claim C6: a sweeper tick removes from the in-memory store exactly
the records with `expiresAt ≤ now` at tick time, returns every other
record unchanged under its key, is a no-op on the empty store, and
touches no backend (writes, delete attempts and the error log are
untouched, as are the pending-persist registry and timers). -/
theorem sweep_tick_exact (now : Int) (m : List (String × ISession))
    (hnd : NodupKeys m) :
    (∀ k, lookupL (sweepStore now m) k
        = match lookupL m k with
          | none => none
          | some s => if now < s.expiresAt then some s else none)
    ∧ sweepStore now ([] : List (String × ISession)) = []
    ∧ (∀ cfg st, (step cfg st (Event.sweep now)).writes = st.writes
        ∧ (step cfg st (Event.sweep now)).deleteAttempts = st.deleteAttempts
        ∧ (step cfg st (Event.sweep now)).errorLog = st.errorLog
        ∧ (step cfg st (Event.sweep now)).persistTimeouts = st.persistTimeouts
        ∧ (step cfg st (Event.sweep now)).timers = st.timers) := by
  refine ⟨fun k => lookupL_sweepStore now m k hnd, rfl, fun cfg st => ?_⟩
  simp [step]

/-- Concrete instance of claim C6: at time 100, a store holding an
expired record under "a" and a live one under "b" sweeps to exactly the
live one. -/
theorem sweep_tick_exact_witness :
    NodupKeys [("a", (⟨"a", 50, "x"⟩ : ISession)), ("b", ⟨"b", 2000, "y"⟩)]
    ∧ lookupL (sweepStore 100 [("a", (⟨"a", 50, "x"⟩ : ISession)), ("b", ⟨"b", 2000, "y"⟩)]) "a"
        = none
    ∧ lookupL (sweepStore 100 [("a", (⟨"a", 50, "x"⟩ : ISession)), ("b", ⟨"b", 2000, "y"⟩)]) "b"
        = some ⟨"b", 2000, "y"⟩ := by
  have hnd : NodupKeys [("a", (⟨"a", 50, "x"⟩ : ISession)), ("b", ⟨"b", 2000, "y"⟩)] := by
    simp [NodupKeys]
  have h := sweep_tick_exact 100 [("a", (⟨"a", 50, "x"⟩ : ISession)), ("b", ⟨"b", 2000, "y"⟩)] hnd
  refine ⟨hnd, ?_, ?_⟩
  · rw [h.1 "a"]; decide
  · rw [h.1 "b"]; decide

/-- Claim C7: after `restore()` with both backends enabled, a lookup in
the in-memory store returns exactly the last successfully-deserialized
record with that id, keyed by the record's own id; falsy rows and blobs
on which deserialization fails are skipped individually without
aborting the rest of the load. -/
theorem restore_loads_exactly_parsed (ns : String)
    (parse : String → Option ISession) (dbRows kvVals : List (Option String))
    (k : String) :
    lookupL (restoreAll ⟨true, true, ns⟩ parse dbRows kvVals []) k
      = lastParsed parse (dbRows ++ kvVals) k :=
  restoreAll_lookup ns parse dbRows kvVals k

/-- Claim C9: `restore()` never filters by TTL: a blob that deserializes
to a record whose `expiresAt` is already at or before the current time
is still inserted into the in-memory store. -/
theorem restore_does_not_filter_ttl (ns : String)
    (parse : String → Option ISession) (dbRows : List (Option String))
    (raw : String) (s : ISession) (now : Int)
    (hp : parse raw = some s)
    (hexp : s.expiresAt ≤ now) :
    lookupL (restoreAll ⟨true, true, ns⟩ parse dbRows [some raw] []) s.id = some s := by
  rw [restoreAll_lookup, lastParsed_append]
  have hone : lastParsed parse [some raw] s.id = some s := by
    simp [lastParsed, parsedSessions, List.filterMap, hp, List.find?]
  rw [hone]

/-- Concrete instance of claim C9: a key/value blob parsing to a record
that expired at time 10, restored at a (later) time 100, is present in
the store. -/
theorem restore_does_not_filter_ttl_witness :
    (fun raw => if raw = "A" then some (⟨"a", 10, "p"⟩ : ISession) else none) "A"
        = some (⟨"a", 10, "p"⟩ : ISession)
    ∧ ((⟨"a", 10, "p"⟩ : ISession).expiresAt ≤ (100 : Int))
    ∧ lookupL (restoreAll ⟨true, true, "ns"⟩
        (fun raw => if raw = "A" then some (⟨"a", 10, "p"⟩ : ISession) else none)
        [] [some "A"] []) "a" = some (⟨"a", 10, "p"⟩ : ISession) :=
  ⟨rfl, by decide,
    restore_does_not_filter_ttl "ns"
      (fun raw => if raw = "A" then some (⟨"a", 10, "p"⟩ : ISession) else none)
      [] "A" ⟨"a", 10, "p"⟩ 100 rfl (by decide)⟩

/-!
Field-projection facts about the operations, used when reasoning about
traces.
-/

theorem upsertOp_enabled (cfg : Config) (t : Int) (st : ModelState) (s : ISession)
    (hen : (cfg.useDb || cfg.useRedis) = true) :
    upsertOp cfg t st s =
      { st with
        sessions := insertL st.sessions s.id s,
        persistTimeouts := insertL st.persistTimeouts s.id st.nextTid,
        timers := (match lookupL st.persistTimeouts s.id with
          | some tid => st.timers.filter (fun tm => decide (tm.tid ≠ tid))
          | none => st.timers)
          ++ [{ tid := st.nextTid, sid := s.id, fireAt := t + 1000 }],
        nextTid := st.nextTid + 1 } := by
  unfold upsertOp
  simp [hen]

theorem upsertOp_disabled (cfg : Config) (t : Int) (st : ModelState) (s : ISession)
    (hen : (cfg.useDb || cfg.useRedis) = false) :
    upsertOp cfg t st s = { st with sessions := insertL st.sessions s.id s } := by
  unfold upsertOp
  simp [hen]

theorem upsertOp_writes (cfg : Config) (t : Int) (st : ModelState) (s : ISession) :
    (upsertOp cfg t st s).writes = st.writes := by
  unfold upsertOp; split <;> rfl

theorem upsertOp_deleteAttempts (cfg : Config) (t : Int) (st : ModelState) (s : ISession) :
    (upsertOp cfg t st s).deleteAttempts = st.deleteAttempts := by
  unfold upsertOp; split <;> rfl

theorem upsertOp_errorLog (cfg : Config) (t : Int) (st : ModelState) (s : ISession) :
    (upsertOp cfg t st s).errorLog = st.errorLog := by
  unfold upsertOp; split <;> rfl

theorem upsertOp_sessions (cfg : Config) (t : Int) (st : ModelState) (s : ISession) :
    (upsertOp cfg t st s).sessions = insertL st.sessions s.id s := by
  unfold upsertOp; split <;> rfl

theorem persistOp_timers (cfg : Config) (t : Int) (df rf : Bool) (st : ModelState)
    (sid : String) : (persistOp cfg t df rf st sid).1.timers = st.timers := by
  simp only [persistOp]
  split
  · rfl
  · split
    · rfl
    · split
      · rfl
      · split_ifs <;> rfl

theorem persistOp_nextTid (cfg : Config) (t : Int) (df rf : Bool) (st : ModelState)
    (sid : String) : (persistOp cfg t df rf st sid).1.nextTid = st.nextTid := by
  simp only [persistOp]
  split
  · rfl
  · split
    · rfl
    · split
      · rfl
      · split_ifs <;> rfl

theorem persistOp_sessions (cfg : Config) (t : Int) (df rf : Bool) (st : ModelState)
    (sid : String) : (persistOp cfg t df rf st sid).1.sessions = st.sessions := by
  simp only [persistOp]
  split
  · rfl
  · split
    · rfl
    · split
      · rfl
      · split_ifs <;> rfl

theorem persistOp_deleteAttempts (cfg : Config) (t : Int) (df rf : Bool) (st : ModelState)
    (sid : String) : (persistOp cfg t df rf st sid).1.deleteAttempts = st.deleteAttempts := by
  simp only [persistOp]
  split
  · rfl
  · split
    · rfl
    · split
      · rfl
      · split_ifs <;> rfl

theorem persistOp_noThrow (cfg : Config) (t : Int) (df rf : Bool) (st : ModelState)
    (sid : String) : (persistOp cfg t df rf st sid).2 = none := by
  simp only [persistOp]
  split
  · rfl
  · split
    · rfl
    · split
      · rfl
      · split_ifs <;> rfl

theorem persistOp_reg (cfg : Config) (t : Int) (df rf : Bool) (st : ModelState)
    (sid : String) (hen : (cfg.useDb || cfg.useRedis) = true) :
    (persistOp cfg t df rf st sid).1.persistTimeouts = eraseL st.persistTimeouts sid := by
  have hc : (!cfg.useDb && !cfg.useRedis) = false := by
    cases hdb : cfg.useDb <;> cases hrd : cfg.useRedis <;> simp_all
  have hcc : ¬ ((!cfg.useDb && !cfg.useRedis) = true) := by simp [hc]
  simp only [persistOp]
  rw [if_neg hcc]
  split
  · rfl
  · split_ifs <;> rfl

theorem removeOp_timers (cfg : Config) (df rf : Bool) (st : ModelState) (id : String) :
    (removeOp cfg df rf st id).1.timers = st.timers := by
  unfold removeOp; split_ifs <;> rfl

theorem removeOp_reg (cfg : Config) (df rf : Bool) (st : ModelState) (id : String) :
    (removeOp cfg df rf st id).1.persistTimeouts = st.persistTimeouts := by
  unfold removeOp; split_ifs <;> rfl

theorem removeOp_nextTid (cfg : Config) (df rf : Bool) (st : ModelState) (id : String) :
    (removeOp cfg df rf st id).1.nextTid = st.nextTid := by
  unfold removeOp; split_ifs <;> rfl

theorem removeOp_writes (cfg : Config) (df rf : Bool) (st : ModelState) (id : String) :
    (removeOp cfg df rf st id).1.writes = st.writes := by
  unfold removeOp; split_ifs <;> rfl

theorem removeOp_sessions (cfg : Config) (df rf : Bool) (st : ModelState) (id : String) :
    (removeOp cfg df rf st id).1.sessions = eraseL st.sessions id := by
  unfold removeOp; split_ifs <;> rfl

theorem fireOp_eq_none (cfg : Config) (t : Int) (tid : Nat) (df rf : Bool)
    (st : ModelState) (hf : st.timers.find? (fun x => x.tid == tid) = none) :
    fireOp cfg t tid df rf st = st := by
  unfold fireOp; rw [hf]

theorem fireOp_eq_some (cfg : Config) (t : Int) (tid : Nat) (df rf : Bool)
    (st : ModelState) (tm : Timer)
    (hf : st.timers.find? (fun x => x.tid == tid) = some tm) :
    fireOp cfg t tid df rf st
      = (persistOp cfg t df rf
          { st with timers := st.timers.filter (fun x => decide (x.tid ≠ tid)) }
          tm.sid).1 := by
  unfold fireOp; rw [hf]

/-- Well-formedness invariant tying the timeout registry to the active
timers: every active timer is the one its session id's registry entry
points to, timer handles are below the fresh counter and pairwise
distinct, and with no backend enabled there are no timers and no
registry entries at all. -/
def RegOk (cfg : Config) (st : ModelState) : Prop :=
  (∀ tm ∈ st.timers, lookupL st.persistTimeouts tm.sid = some tm.tid)
  ∧ (∀ tm ∈ st.timers, tm.tid < st.nextTid)
  ∧ st.timers.Pairwise (fun a b => a.tid ≠ b.tid)
  ∧ ((cfg.useDb || cfg.useRedis) = false → st.timers = [] ∧ st.persistTimeouts = [])

theorem timer_eq_of_tid_eq {l : List Timer}
    (hp : l.Pairwise (fun a b => a.tid ≠ b.tid))
    {tm1 tm2 : Timer} (h1 : tm1 ∈ l) (h2 : tm2 ∈ l) (heq : tm1.tid = tm2.tid) :
    tm1 = tm2 := by
  induction l with
  | nil => cases h1
  | cons a rest ih =>
    have hhead := (List.pairwise_cons.mp hp).1
    have hrest := (List.pairwise_cons.mp hp).2
    cases List.mem_cons.mp h1 with
    | inl e1 =>
      cases List.mem_cons.mp h2 with
      | inl e2 => rw [e1, e2]
      | inr m2 => exact absurd heq (by rw [e1]; exact hhead tm2 m2)
    | inr m1 =>
      cases List.mem_cons.mp h2 with
      | inl e2 =>
        exact absurd heq (by rw [e2]; exact fun hh => (hhead tm1 m1) hh.symm)
      | inr m2 => exact ih hrest m1 m2

/-- At most one active timer per session id, as the debounce requires. -/
theorem regOk_unique_sid {cfg : Config} {st : ModelState} (h : RegOk cfg st) :
    ∀ tm1 ∈ st.timers, ∀ tm2 ∈ st.timers, tm1.sid = tm2.sid → tm1 = tm2 := by
  intro tm1 h1 tm2 h2 hsid
  have e1 := h.1 tm1 h1
  have e2 := h.1 tm2 h2
  rw [hsid, e2] at e1
  exact timer_eq_of_tid_eq h.2.2.1 h1 h2 (Option.some.inj e1).symm

theorem regOk_upsertOp (cfg : Config) (t : Int) (st : ModelState) (s : ISession)
    (h : RegOk cfg st) : RegOk cfg (upsertOp cfg t st s) := by
  obtain ⟨h1, h2, h3, h4⟩ := h
  by_cases hen : (cfg.useDb || cfg.useRedis) = true
  · rw [upsertOp_enabled cfg t st s hen]
    have key : ∀ old : List Timer,
        (∀ tm ∈ old, tm ∈ st.timers) →
        (∀ tm ∈ old, tm.sid ≠ s.id) →
        old.Pairwise (fun a b => a.tid ≠ b.tid) →
        RegOk cfg
          { st with
            sessions := insertL st.sessions s.id s,
            persistTimeouts := insertL st.persistTimeouts s.id st.nextTid,
            timers := old ++ [{ tid := st.nextTid, sid := s.id, fireAt := t + 1000 }],
            nextTid := st.nextTid + 1 } := by
      intro old hsub hnosid hpw
      refine ⟨?_, ?_, ?_, ?_⟩
      · intro tm hm
        rcases List.mem_append.mp hm with hm | hm
        · have hne : tm.sid ≠ s.id := hnosid tm hm
          show lookupL (insertL st.persistTimeouts s.id st.nextTid) tm.sid = some tm.tid
          rw [lookupL_insertL_ne _ _ _ _ hne]
          exact h1 tm (hsub tm hm)
        · rw [List.mem_singleton.mp hm]
          exact lookupL_insertL_self _ _ _
      · intro tm hm
        rcases List.mem_append.mp hm with hm | hm
        · exact Nat.lt_succ_of_lt (h2 tm (hsub tm hm))
        · rw [List.mem_singleton.mp hm]; exact Nat.lt_succ_self _
      · show (old ++ [_]).Pairwise _
        rw [List.pairwise_append]
        refine ⟨hpw, List.pairwise_singleton _ _, ?_⟩
        intro a ha b hb
        rw [List.mem_singleton.mp hb]
        exact Nat.ne_of_lt (h2 a (hsub a ha))
      · intro hdis; rw [hen] at hdis; cases hdis
    cases hlk : lookupL st.persistTimeouts s.id with
    | none =>
      simp only [hlk]
      refine key st.timers (fun tm hm => hm) ?_ h3
      intro tm hm hsid
      have hc := h1 tm hm
      rw [hsid, hlk] at hc
      cases hc
    | some tid =>
      simp only [hlk]
      refine key (st.timers.filter (fun tm => decide (tm.tid ≠ tid)))
        (fun tm hm => (List.mem_filter.mp hm).1) ?_ (h3.filter _)
      intro tm hm hsid
      have hmem : tm ∈ st.timers := (List.mem_filter.mp hm).1
      have hne : tm.tid ≠ tid := of_decide_eq_true (List.mem_filter.mp hm).2
      have hc := h1 tm hmem
      rw [hsid, hlk] at hc
      exact hne (Option.some.inj hc).symm
  · have hf : (cfg.useDb || cfg.useRedis) = false := by
      cases hb : (cfg.useDb || cfg.useRedis)
      · rfl
      · exact absurd hb hen
    rw [upsertOp_disabled cfg t st s hf]
    exact ⟨h1, h2, h3, h4⟩

theorem regOk_fireOp (cfg : Config) (t : Int) (tid : Nat) (df rf : Bool)
    (st : ModelState) (h : RegOk cfg st) : RegOk cfg (fireOp cfg t tid df rf st) := by
  obtain ⟨h1, h2, h3, h4⟩ := h
  cases hf : st.timers.find? (fun x => x.tid == tid) with
  | none => rw [fireOp_eq_none cfg t tid df rf st hf]; exact ⟨h1, h2, h3, h4⟩
  | some tm =>
    rw [fireOp_eq_some cfg t tid df rf st tm hf]
    have htmmem : tm ∈ st.timers := List.mem_of_find?_eq_some hf
    have htmtid : tm.tid = tid := by
      have := List.find?_some hf
      simpa using this
    by_cases hen : (cfg.useDb || cfg.useRedis) = true
    · have hT := persistOp_timers cfg t df rf
        { st with timers := st.timers.filter (fun x => decide (x.tid ≠ tid)) } tm.sid
      have hR := persistOp_reg cfg t df rf
        { st with timers := st.timers.filter (fun x => decide (x.tid ≠ tid)) } tm.sid hen
      have hN := persistOp_nextTid cfg t df rf
        { st with timers := st.timers.filter (fun x => decide (x.tid ≠ tid)) } tm.sid
      refine ⟨?_, ?_, ?_, ?_⟩
      · intro tm' hm'
        rw [hT] at hm'
        have hmem : tm' ∈ st.timers := (List.mem_filter.mp hm').1
        have hne : tm'.tid ≠ tid := of_decide_eq_true (List.mem_filter.mp hm').2
        rw [hR]
        have hsidne : tm'.sid ≠ tm.sid := by
          intro hs
          have e1 := h1 tm' hmem
          have e2 := h1 tm htmmem
          rw [hs, e2] at e1
          exact hne (htmtid ▸ (Option.some.inj e1).symm)
        show lookupL (eraseL st.persistTimeouts tm.sid) tm'.sid = some tm'.tid
        rw [lookupL_eraseL_ne _ _ _ hsidne]
        exact h1 tm' hmem
      · intro tm' hm'
        rw [hT] at hm'
        rw [hN]
        exact h2 tm' (List.mem_filter.mp hm').1
      · rw [hT]
        exact h3.filter _
      · intro hdis; rw [hen] at hdis; cases hdis
    · have hff : (cfg.useDb || cfg.useRedis) = false := by
        cases hb : (cfg.useDb || cfg.useRedis)
        · rfl
        · exact absurd hb hen
      have htemp := (h4 hff).1
      rw [htemp] at hf
      cases hf

theorem regOk_removeOp (cfg : Config) (df rf : Bool) (st : ModelState) (id : String)
    (h : RegOk cfg st) : RegOk cfg (removeOp cfg df rf st id).1 := by
  obtain ⟨h1, h2, h3, h4⟩ := h
  refine ⟨?_, ?_, ?_, ?_⟩
  · intro tm hm
    rw [removeOp_timers] at hm
    rw [removeOp_reg]
    exact h1 tm hm
  · intro tm hm
    rw [removeOp_timers] at hm
    rw [removeOp_nextTid]
    exact h2 tm hm
  · rw [removeOp_timers]
    exact h3
  · intro hdis
    rw [removeOp_timers, removeOp_reg]
    exact h4 hdis

theorem regOk_step (cfg : Config) (st : ModelState) (ev : Event)
    (h : RegOk cfg st) : RegOk cfg (step cfg st ev) := by
  cases ev with
  | upsert t s => exact regOk_upsertOp cfg t st s h
  | remove df rf id => exact regOk_removeOp cfg df rf st id h
  | fire t tid df rf => exact regOk_fireOp cfg t tid df rf st h
  | sweep t =>
    obtain ⟨h1, h2, h3, h4⟩ := h
    exact ⟨h1, h2, h3, h4⟩

theorem regOk_initState (cfg : Config) : RegOk cfg initState := by
  refine ⟨?_, ?_, ?_, ?_⟩ <;> simp [initState]

theorem regOk_run_from (cfg : Config) (evs : List Event) :
    ∀ st, RegOk cfg st → RegOk cfg (run cfg st evs) := by
  induction evs with
  | nil => intro st h; exact h
  | cons ev rest ih =>
    intro st h
    exact ih (step cfg st ev) (regOk_step cfg st ev h)

theorem regOk_run (cfg : Config) (evs : List Event) :
    RegOk cfg (run cfg initState evs) :=
  regOk_run_from cfg evs initState (regOk_initState cfg)

/-- The writes one successful `persist` flush issues at time `t` for a
session `s` stored under `sid`: one per enabled backend, the redis one
carrying the remaining TTL as its expiry. -/
def persistWrites (cfg : Config) (sid : String) (s : ISession) (t : Int) : List Write :=
  (if cfg.useDb then
      [{ backend := Backend.db, key := sid, value := s, ttl := none, time := t }]
    else [])
  ++ (if cfg.useRedis then
      [{ backend := Backend.redis, key := buildRedisKey cfg.ns s.id, value := s,
         ttl := some (s.expiresAt - t), time := t }]
    else [])

theorem persistOp_absent (cfg : Config) (t : Int) (df rf : Bool) (st : ModelState)
    (sid : String) (hen : (cfg.useDb || cfg.useRedis) = true)
    (habs : lookupL st.sessions sid = none) :
    (persistOp cfg t df rf st sid).1
      = { st with persistTimeouts := eraseL st.persistTimeouts sid } := by
  have hcc : ¬ ((!cfg.useDb && !cfg.useRedis) = true) := by
    cases hdb : cfg.useDb <;> cases hrd : cfg.useRedis <;> simp_all
  simp only [persistOp]
  rw [if_neg hcc,
    show (lookupL ({ st with persistTimeouts := eraseL st.persistTimeouts sid }
      : ModelState).sessions sid) = none from habs]

theorem persistOp_expired (cfg : Config) (t : Int) (df rf : Bool) (st : ModelState)
    (sid : String) (s : ISession) (hen : (cfg.useDb || cfg.useRedis) = true)
    (hs : lookupL st.sessions sid = some s) (hexp : s.expiresAt - t ≤ 0) :
    (persistOp cfg t df rf st sid).1
      = { st with persistTimeouts := eraseL st.persistTimeouts sid } := by
  have hcc : ¬ ((!cfg.useDb && !cfg.useRedis) = true) := by
    cases hdb : cfg.useDb <;> cases hrd : cfg.useRedis <;> simp_all
  simp only [persistOp]
  rw [if_neg hcc]
  simp only [hs]
  rw [if_pos hexp]

theorem persistOp_expired_writes (cfg : Config) (t : Int) (df rf : Bool)
    (st : ModelState) (sid : String) (s : ISession)
    (hs : lookupL st.sessions sid = some s) (hexp : s.expiresAt - t ≤ 0) :
    (persistOp cfg t df rf st sid).1.writes = st.writes := by
  by_cases hc : (!cfg.useDb && !cfg.useRedis) = true
  · simp only [persistOp]; rw [if_pos hc]
  · simp only [persistOp]
    rw [if_neg hc]
    simp only [hs]
    rw [if_pos hexp]

theorem persistOp_success_writes (cfg : Config) (t : Int) (st : ModelState)
    (sid : String) (s : ISession) (hen : (cfg.useDb || cfg.useRedis) = true)
    (hs : lookupL st.sessions sid = some s) (hlive : ¬ s.expiresAt - t ≤ 0) :
    (persistOp cfg t false false st sid).1.writes
      = st.writes ++ persistWrites cfg sid s t := by
  have hcc : ¬ ((!cfg.useDb && !cfg.useRedis) = true) := by
    cases hdb : cfg.useDb <;> cases hrd : cfg.useRedis <;> simp_all
  simp only [persistOp]
  rw [if_neg hcc]
  simp only [hs]
  rw [if_neg hlive]
  cases hdb : cfg.useDb <;> cases hrd : cfg.useRedis <;>
    simp_all [persistWrites, List.append_assoc]

theorem persistOp_errorLog_eq (cfg : Config) (t : Int) (df rf : Bool)
    (st : ModelState) (sid : String) (s : ISession)
    (hen : (cfg.useDb || cfg.useRedis) = true)
    (hs : lookupL st.sessions sid = some s) (hlive : ¬ s.expiresAt - t ≤ 0) :
    (persistOp cfg t df rf st sid).1.errorLog
      = st.errorLog
        ++ (if cfg.useDb && df then [(Backend.db, sid)] else [])
        ++ (if cfg.useRedis && rf then [(Backend.redis, sid)] else []) := by
  have hcc : ¬ ((!cfg.useDb && !cfg.useRedis) = true) := by
    cases hdb : cfg.useDb <;> cases hrd : cfg.useRedis <;> simp_all
  simp only [persistOp]
  rw [if_neg hcc]
  simp only [hs]
  rw [if_neg hlive]
  cases hdb : cfg.useDb <;> cases hdf : df <;> cases hrd : cfg.useRedis <;>
    cases hrf : rf <;> simp_all [List.append_assoc]

theorem upsert_cancel_replace (cfg : Config) (t : Int) (st : ModelState)
    (s : ISession) (h : RegOk cfg st) (hen : (cfg.useDb || cfg.useRedis) = true) :
    (∀ tm ∈ (upsertOp cfg t st s).timers, tm.sid = s.id →
        tm = { tid := st.nextTid, sid := s.id, fireAt := t + 1000 })
    ∧ lookupL (upsertOp cfg t st s).persistTimeouts s.id = some st.nextTid := by
  obtain ⟨h1, h2, h3, h4⟩ := h
  rw [upsertOp_enabled cfg t st s hen]
  constructor
  · intro tm hm hsid
    rcases List.mem_append.mp hm with hm | hm
    · exfalso
      cases hlk : lookupL st.persistTimeouts s.id with
      | none =>
        simp only [hlk] at hm
        have hc := h1 tm hm
        rw [hsid, hlk] at hc
        cases hc
      | some tid =>
        simp only [hlk] at hm
        have hmem : tm ∈ st.timers := (List.mem_filter.mp hm).1
        have hne : tm.tid ≠ tid := of_decide_eq_true (List.mem_filter.mp hm).2
        have hc := h1 tm hmem
        rw [hsid, hlk] at hc
        exact hne (Option.some.inj hc).symm
    · exact List.mem_singleton.mp hm
  · exact lookupL_insertL_self _ _ _

theorem fired_persist_clears_entry (cfg : Config) (t : Int) (tid : Nat)
    (df rf : Bool) (st : ModelState) (tm : Timer)
    (hen : (cfg.useDb || cfg.useRedis) = true)
    (hf : st.timers.find? (fun x => x.tid == tid) = some tm) :
    lookupL (fireOp cfg t tid df rf st).persistTimeouts tm.sid = none := by
  rw [fireOp_eq_some cfg t tid df rf st tm hf]
  rw [persistOp_reg _ _ _ _ _ _ hen]
  exact lookupL_eraseL_self _ _

/-- Claim C8: in every reachable state the pending-write registry holds at
most one scheduled write per id (two active timers with the same session
id coincide); an `upsert` for an id cancels any previously scheduled
timer for that id — the fresh timer is the only one left for the id and
the registry maps the id to its handle; and a fired persist task clears
its own registry entry: immediately after a fire no registry entry for
the fired timer's id remains. -/
theorem pending_registry_single (cfg : Config) (evs : List Event) :
    (∀ tm1 ∈ (run cfg initState evs).timers, ∀ tm2 ∈ (run cfg initState evs).timers,
        tm1.sid = tm2.sid → tm1 = tm2)
    ∧ (∀ t s, (cfg.useDb || cfg.useRedis) = true →
        (∀ tm ∈ (upsertOp cfg t (run cfg initState evs) s).timers, tm.sid = s.id →
          tm = { tid := (run cfg initState evs).nextTid, sid := s.id,
                 fireAt := t + 1000 })
        ∧ lookupL (upsertOp cfg t (run cfg initState evs) s).persistTimeouts s.id
            = some (run cfg initState evs).nextTid)
    ∧ (∀ t tid df rf tm, (cfg.useDb || cfg.useRedis) = true →
        (run cfg initState evs).timers.find? (fun x => x.tid == tid) = some tm →
        lookupL (fireOp cfg t tid df rf (run cfg initState evs)).persistTimeouts tm.sid
          = none) := by
  refine ⟨regOk_unique_sid (regOk_run cfg evs), ?_, ?_⟩
  · intro t s hen
    exact upsert_cancel_replace cfg t _ s (regOk_run cfg evs) hen
  · intro t tid df rf tm hen hf
    exact fired_persist_clears_entry cfg t tid df rf _ tm hen hf

/-- Concrete instance of claim C8: after one upsert the single pending
timer fires and its registry entry is gone. -/
theorem pending_registry_single_witness :
    ((⟨true, true, "ns"⟩ : Config).useDb || (⟨true, true, "ns"⟩ : Config).useRedis) = true
    ∧ (run ⟨true, true, "ns"⟩ initState [Event.upsert 0 ⟨"a", 5000, "p"⟩]).timers.find?
        (fun x => x.tid == 0) = some { tid := 0, sid := "a", fireAt := 1000 }
    ∧ lookupL (fireOp ⟨true, true, "ns"⟩ 1000 0 false false
        (run ⟨true, true, "ns"⟩ initState
          [Event.upsert 0 ⟨"a", 5000, "p"⟩])).persistTimeouts "a" = none := by
  refine ⟨by decide, by decide, ?_⟩
  have h := pending_registry_single ⟨true, true, "ns"⟩ [Event.upsert 0 ⟨"a", 5000, "p"⟩]
  exact h.2.2 1000 0 false false { tid := 0, sid := "a", fireAt := 1000 }
    (by decide) (by decide)

/-- Claim C10: `remove(id)` leaves the pending-write registry and the
active timers exactly as they were (it never cancels a pending persist);
the entry survives until the pending timer fires, at which point the
persist task clears the registry entry for the id and — the id being
absent from the store — issues no backend write. -/
theorem remove_preserves_pending (cfg : Config) (df rf : Bool) (st : ModelState)
    (id : String) :
    (removeOp cfg df rf st id).1.persistTimeouts = st.persistTimeouts
    ∧ (removeOp cfg df rf st id).1.timers = st.timers
    ∧ (∀ t tid df2 rf2 tm, (cfg.useDb || cfg.useRedis) = true →
        st.timers.find? (fun x => x.tid == tid) = some tm → tm.sid = id →
        lookupL (fireOp cfg t tid df2 rf2
            (removeOp cfg df rf st id).1).persistTimeouts id = none
        ∧ (fireOp cfg t tid df2 rf2 (removeOp cfg df rf st id).1).writes
            = (removeOp cfg df rf st id).1.writes) := by
  refine ⟨removeOp_reg cfg df rf st id, removeOp_timers cfg df rf st id, ?_⟩
  intro t tid df2 rf2 tm hen hf hsid
  have hf2 : (removeOp cfg df rf st id).1.timers.find? (fun x => x.tid == tid)
      = some tm := by
    rw [removeOp_timers]; exact hf
  rw [fireOp_eq_some cfg t tid df2 rf2 _ tm hf2]
  have habs : lookupL ({ (removeOp cfg df rf st id).1 with
      timers := (removeOp cfg df rf st id).1.timers.filter
        (fun x => decide (x.tid ≠ tid)) } : ModelState).sessions tm.sid = none := by
    show lookupL (removeOp cfg df rf st id).1.sessions tm.sid = none
    rw [removeOp_sessions, hsid]
    exact lookupL_eraseL_self _ _
  rw [persistOp_absent _ _ _ _ _ _ hen habs]
  constructor
  · show lookupL (eraseL (removeOp cfg df rf st id).1.persistTimeouts tm.sid) id = none
    rw [hsid]
    exact lookupL_eraseL_self _ _
  · rfl

/-- Concrete instance of claim C10: after upsert then remove, the timer is
still registered, and its later fire clears the entry and writes nothing. -/
theorem remove_preserves_pending_witness :
    (removeOp ⟨true, true, "ns"⟩ false false
        (run ⟨true, true, "ns"⟩ initState [Event.upsert 0 ⟨"a", 5000, "p"⟩])
        "a").1.persistTimeouts
      = (run ⟨true, true, "ns"⟩ initState
          [Event.upsert 0 ⟨"a", 5000, "p"⟩]).persistTimeouts
    ∧ lookupL (fireOp ⟨true, true, "ns"⟩ 1000 0 false false
        (removeOp ⟨true, true, "ns"⟩ false false
          (run ⟨true, true, "ns"⟩ initState [Event.upsert 0 ⟨"a", 5000, "p"⟩])
          "a").1).persistTimeouts "a" = none := by
  have h := remove_preserves_pending ⟨true, true, "ns"⟩ false false
    (run ⟨true, true, "ns"⟩ initState [Event.upsert 0 ⟨"a", 5000, "p"⟩]) "a"
  exact ⟨h.1, (h.2.2 1000 0 false false { tid := 0, sid := "a", fireAt := 1000 }
    (by decide) (by decide) rfl).1⟩

/-- Claim C3: an `upsert(s)` at time `t` schedules a persist task; if
`remove(s.id)` runs before that task fires, the task — firing at any
later time — finds the id absent from the store, clears its registry
entry and issues no backend write: the write log after the fire is
exactly what it was before the upsert. -/
theorem remove_before_quiet_no_write (cfg : Config) (st0 : ModelState)
    (t tfire : Int) (s : ISession) (df rf df2 rf2 : Bool)
    (hreg : RegOk cfg st0) (hen : (cfg.useDb || cfg.useRedis) = true) :
    (fireOp cfg tfire st0.nextTid df2 rf2
        (removeOp cfg df rf (upsertOp cfg t st0 s) s.id).1).writes = st0.writes
    ∧ lookupL (fireOp cfg tfire st0.nextTid df2 rf2
        (removeOp cfg df rf (upsertOp cfg t st0 s) s.id).1).persistTimeouts s.id
      = none := by
  obtain ⟨h1, h2, h3, h4⟩ := hreg
  have hsub : ∀ tm ∈ (match lookupL st0.persistTimeouts s.id with
      | some tid => st0.timers.filter (fun (x : Timer) => decide (x.tid ≠ tid))
      | none => st0.timers), tm ∈ st0.timers := by
    intro tm hm
    cases hlk : lookupL st0.persistTimeouts s.id with
    | some tid => simp only [hlk] at hm; exact (List.mem_filter.mp hm).1
    | none => simp only [hlk] at hm; exact hm
  have hfind : (upsertOp cfg t st0 s).timers.find? (fun x => x.tid == st0.nextTid)
      = some { tid := st0.nextTid, sid := s.id, fireAt := t + 1000 } := by
    rw [upsertOp_enabled cfg t st0 s hen]
    show ((match lookupL st0.persistTimeouts s.id with
        | some tid => st0.timers.filter (fun (x : Timer) => decide (x.tid ≠ tid))
        | none => st0.timers)
        ++ [{ tid := st0.nextTid, sid := s.id, fireAt := t + 1000 }]).find?
          (fun x => x.tid == st0.nextTid)
      = some { tid := st0.nextTid, sid := s.id, fireAt := t + 1000 }
    rw [List.find?_append]
    have hnone : (match lookupL st0.persistTimeouts s.id with
        | some tid => st0.timers.filter (fun (x : Timer) => decide (x.tid ≠ tid))
        | none => st0.timers).find? (fun (x : Timer) => x.tid == st0.nextTid) = none := by
      apply List.find?_eq_none.mpr
      intro x hx
      have hlt := h2 x (hsub x hx)
      simp only [beq_iff_eq]
      omega
    rw [hnone]
    simp [List.find?, Option.or]
  have hfind2 : (removeOp cfg df rf (upsertOp cfg t st0 s) s.id).1.timers.find?
      (fun x => x.tid == st0.nextTid)
      = some { tid := st0.nextTid, sid := s.id, fireAt := t + 1000 } := by
    rw [removeOp_timers]; exact hfind
  rw [fireOp_eq_some cfg tfire st0.nextTid df2 rf2 _ _ hfind2]
  have habs : lookupL ({ (removeOp cfg df rf (upsertOp cfg t st0 s) s.id).1 with
      timers := (removeOp cfg df rf (upsertOp cfg t st0 s) s.id).1.timers.filter
        (fun x => decide (x.tid ≠ st0.nextTid)) } : ModelState).sessions
      ({ tid := st0.nextTid, sid := s.id, fireAt := t + 1000 } : Timer).sid = none := by
    show lookupL (removeOp cfg df rf (upsertOp cfg t st0 s) s.id).1.sessions s.id = none
    rw [removeOp_sessions]
    exact lookupL_eraseL_self _ _
  rw [persistOp_absent _ _ _ _ _ _ hen habs]
  constructor
  · show (removeOp cfg df rf (upsertOp cfg t st0 s) s.id).1.writes = st0.writes
    rw [removeOp_writes, upsertOp_writes]
  · show lookupL (eraseL
        (removeOp cfg df rf (upsertOp cfg t st0 s) s.id).1.persistTimeouts s.id) s.id
      = none
    exact lookupL_eraseL_self _ _

/-- Concrete instance of claim C3: upsert at 0, remove immediately, timer
fires at 1000 — no backend write at all. -/
theorem remove_before_quiet_no_write_witness :
    (fireOp ⟨true, true, "ns"⟩ 1000 0 false false
        (removeOp ⟨true, true, "ns"⟩ false false
          (upsertOp ⟨true, true, "ns"⟩ 0 initState ⟨"a", 5000, "p"⟩) "a").1).writes
      = []
    ∧ lookupL (fireOp ⟨true, true, "ns"⟩ 1000 0 false false
        (removeOp ⟨true, true, "ns"⟩ false false
          (upsertOp ⟨true, true, "ns"⟩ 0 initState ⟨"a", 5000, "p"⟩)
          "a").1).persistTimeouts "a" = none := by
  have h := remove_before_quiet_no_write ⟨true, true, "ns"⟩ initState 0 1000
    ⟨"a", 5000, "p"⟩ false false false false (regOk_initState _) (by decide)
  exact ⟨h.1, h.2⟩

theorem persistOp_writes_eq_general (cfg : Config) (t : Int) (df rf : Bool)
    (st : ModelState) (sid : String) (s : ISession)
    (hen : (cfg.useDb || cfg.useRedis) = true)
    (hs : lookupL st.sessions sid = some s) (hlive : ¬ s.expiresAt - t ≤ 0) :
    (persistOp cfg t df rf st sid).1.writes
      = st.writes
        ++ (if cfg.useDb && !df then
              [{ backend := Backend.db, key := sid, value := s, ttl := none, time := t }]
            else [])
        ++ (if cfg.useRedis && !rf then
              [{ backend := Backend.redis, key := buildRedisKey cfg.ns s.id, value := s,
                 ttl := some (s.expiresAt - t), time := t }]
            else []) := by
  have hcc : ¬ ((!cfg.useDb && !cfg.useRedis) = true) := by
    cases hdb : cfg.useDb <;> cases hrd : cfg.useRedis <;> simp_all
  simp only [persistOp]
  rw [if_neg hcc]
  simp only [hs]
  rw [if_neg hlive]
  cases hdb : cfg.useDb <;> cases hdf : df <;> cases hrd : cfg.useRedis <;>
    cases hrf : rf <;> simp_all [List.append_assoc]

/-- A write the scheduler is allowed to issue: issued strictly before
expiry, and carrying the remaining TTL when aimed at redis. -/
def GoodWrite (w : Write) : Prop :=
  (w.backend = Backend.redis → w.ttl = some (w.value.expiresAt - w.time))
  ∧ w.value.expiresAt - w.time > 0

theorem persistOp_writes_extend (cfg : Config) (t : Int) (df rf : Bool)
    (st : ModelState) (sid : String) :
    ∀ w ∈ (persistOp cfg t df rf st sid).1.writes, w ∈ st.writes ∨ GoodWrite w := by
  intro w hw
  by_cases hc : (!cfg.useDb && !cfg.useRedis) = true
  · simp only [persistOp] at hw
    rw [if_pos hc] at hw
    exact Or.inl hw
  · have hen : (cfg.useDb || cfg.useRedis) = true := by
      cases hdb : cfg.useDb <;> cases hrd : cfg.useRedis <;> simp_all
    cases hs : lookupL st.sessions sid with
    | none =>
      rw [persistOp_absent cfg t df rf st sid hen hs] at hw
      exact Or.inl hw
    | some s =>
      by_cases hexp : s.expiresAt - t ≤ 0
      · rw [persistOp_expired cfg t df rf st sid s hen hs hexp] at hw
        exact Or.inl hw
      · rw [persistOp_writes_eq_general cfg t df rf st sid s hen hs hexp] at hw
        rcases List.mem_append.mp hw with hw1 | hw2
        · rcases List.mem_append.mp hw1 with hw0 | hdbw
          · exact Or.inl hw0
          · by_cases hcdb : (cfg.useDb && !df) = true
            · rw [if_pos hcdb] at hdbw
              rw [List.mem_singleton.mp hdbw]
              refine Or.inr ⟨?_, ?_⟩
              · intro hbk; exact Backend.noConfusion hbk
              · show s.expiresAt - t > 0
                omega
            · rw [if_neg hcdb] at hdbw
              exact absurd hdbw (List.not_mem_nil w)
        · by_cases hcrd : (cfg.useRedis && !rf) = true
          · rw [if_pos hcrd] at hw2
            rw [List.mem_singleton.mp hw2]
            refine Or.inr ⟨?_, ?_⟩
            · intro _; rfl
            · show s.expiresAt - t > 0
              omega
          · rw [if_neg hcrd] at hw2
            exact absurd hw2 (List.not_mem_nil w)

theorem goodWrites_step (cfg : Config) (st : ModelState) (ev : Event)
    (h : ∀ w ∈ st.writes, GoodWrite w) :
    ∀ w ∈ (step cfg st ev).writes, GoodWrite w := by
  cases ev with
  | upsert t s =>
    intro w hw
    rw [show (step cfg st (Event.upsert t s)).writes = st.writes from
      upsertOp_writes cfg t st s] at hw
    exact h w hw
  | remove df rf id =>
    intro w hw
    rw [show (step cfg st (Event.remove df rf id)).writes = st.writes from
      removeOp_writes cfg df rf st id] at hw
    exact h w hw
  | sweep t =>
    intro w hw
    exact h w hw
  | fire t tid df rf =>
    intro w hw
    cases hf : st.timers.find? (fun x => x.tid == tid) with
    | none =>
      rw [show (step cfg st (Event.fire t tid df rf)).writes = st.writes from by
        show (fireOp cfg t tid df rf st).writes = st.writes
        rw [fireOp_eq_none cfg t tid df rf st hf]] at hw
      exact h w hw
    | some tm =>
      rw [show (step cfg st (Event.fire t tid df rf)).writes
          = (persistOp cfg t df rf
              { st with timers := st.timers.filter (fun x => decide (x.tid ≠ tid)) }
              tm.sid).1.writes from by
        show (fireOp cfg t tid df rf st).writes = _
        rw [fireOp_eq_some cfg t tid df rf st tm hf]] at hw
      rcases persistOp_writes_extend cfg t df rf _ tm.sid w hw with hw0 | hg
      · exact h w hw0
      · exact hg

theorem goodWrites_run_from (cfg : Config) (evs : List Event) :
    ∀ st, (∀ w ∈ st.writes, GoodWrite w) →
      ∀ w ∈ (run cfg st evs).writes, GoodWrite w := by
  induction evs with
  | nil => intro st h; exact h
  | cons ev rest ih =>
    intro st h
    exact ih (step cfg st ev) (goodWrites_step cfg st ev h)

/-- Claim C4: in every reachable state, every backend write that was ever
issued happened strictly before its record's expiry (`remainingTTL > 0`
at flush time), and every redis write carries an expiry equal to the
remaining TTL at flush time; moreover a persist task that re-reads a
record already expired at fire time leaves the write log untouched. -/
theorem expired_never_persisted (cfg : Config) (evs : List Event) :
    (∀ w ∈ (run cfg initState evs).writes,
        (w.backend = Backend.redis → w.ttl = some (w.value.expiresAt - w.time))
        ∧ w.value.expiresAt - w.time > 0)
    ∧ (∀ t df rf st sid s, lookupL st.sessions sid = some s → s.expiresAt - t ≤ 0 →
        (persistOp cfg t df rf st sid).1.writes = st.writes) := by
  constructor
  · exact goodWrites_run_from cfg evs initState (fun w hw => absurd hw (List.not_mem_nil w))
  · intro t df rf st sid s hs hexp
    exact persistOp_expired_writes cfg t df rf st sid s hs hexp

/-- Concrete instance of claim C4: the redis write issued at 1000 for a
record expiring at 5000 carries `PX 4000`; a record expiring at 10 is not
flushed at 1000. -/
theorem expired_never_persisted_witness :
    ((⟨Backend.redis, "ns:session:a", ⟨"a", 5000, "p"⟩, some 4000, 1000⟩ : Write)
      ∈ (run ⟨true, true, "ns"⟩ initState
          [Event.upsert 0 ⟨"a", 5000, "p"⟩, Event.fire 1000 0 false false]).writes)
    ∧ (((⟨Backend.redis, "ns:session:a", ⟨"a", 5000, "p"⟩, some 4000, 1000⟩ : Write).backend
            = Backend.redis →
          (⟨Backend.redis, "ns:session:a", ⟨"a", 5000, "p"⟩, some 4000, 1000⟩ : Write).ttl
            = some ((⟨"a", 5000, "p"⟩ : ISession).expiresAt - 1000))
        ∧ (⟨"a", 5000, "p"⟩ : ISession).expiresAt - 1000 > 0)
    ∧ lookupL (⟨[("a", ⟨"a", 10, "p"⟩)], [], [], 0, [], [], []⟩
        : ModelState).sessions "a" = some ⟨"a", 10, "p"⟩
    ∧ ((⟨"a", 10, "p"⟩ : ISession).expiresAt - 1000 ≤ 0)
    ∧ (persistOp ⟨true, true, "ns"⟩ 1000 false false
        ⟨[("a", ⟨"a", 10, "p"⟩)], [], [], 0, [], [], []⟩ "a").1.writes
      = (⟨[("a", ⟨"a", 10, "p"⟩)], [], [], 0, [], [], []⟩ : ModelState).writes := by
  have h := expired_never_persisted ⟨true, true, "ns"⟩
    [Event.upsert 0 ⟨"a", 5000, "p"⟩, Event.fire 1000 0 false false]
  have hmem : (⟨Backend.redis, "ns:session:a", ⟨"a", 5000, "p"⟩, some 4000, 1000⟩ : Write)
      ∈ (run ⟨true, true, "ns"⟩ initState
          [Event.upsert 0 ⟨"a", 5000, "p"⟩, Event.fire 1000 0 false false]).writes := by
    decide
  refine ⟨hmem, h.1 _ hmem, by decide, by decide, ?_⟩
  exact h.2 1000 false false
    ⟨[("a", ⟨"a", 10, "p"⟩)], [], [], 0, [], [], []⟩ "a" ⟨"a", 10, "p"⟩
    (by decide) (by decide)

/-- Claim C5 as stated is false on the code: with both backends enabled, a
failing relational delete inside `remove` is not swallowed — it is
surfaced to `remove`'s caller — and the key/value delete is then never
attempted (only the relational delete appears in the attempt log). -/
theorem remove_failure_surfaces_cex :
    (removeOp ⟨true, true, "ns"⟩ true false initState "a").2 = some Backend.db
    ∧ (removeOp ⟨true, true, "ns"⟩ true false initState "a").1.deleteAttempts
        = [(Backend.db, "a")] := by decide

/-- Claim C5 amended: a backend write failure during debounced persistence
is logged and swallowed — `persist` never propagates an exception, and a
failing enabled backend write on a live, unexpired record appends to the
error log — but `remove`'s backend deletes are unguarded: with the
relational backend enabled, its delete is always attempted and a failure
propagates to `remove`'s caller, preventing the key/value delete from
being attempted; a key/value delete failure likewise propagates. -/
theorem persist_failures_swallowed (cfg : Config) (t : Int) (df rf : Bool)
    (st : ModelState) (sid : String) (s : ISession) :
    (persistOp cfg t df rf st sid).2 = none
    ∧ (cfg.useDb = true → df = true → lookupL st.sessions sid = some s →
        ¬ s.expiresAt - t ≤ 0 →
        (Backend.db, sid) ∈ (persistOp cfg t df rf st sid).1.errorLog)
    ∧ (cfg.useRedis = true → rf = true → lookupL st.sessions sid = some s →
        ¬ s.expiresAt - t ≤ 0 →
        (Backend.redis, sid) ∈ (persistOp cfg t df rf st sid).1.errorLog)
    ∧ (cfg.useDb = true →
        (removeOp cfg true rf st sid).2 = some Backend.db
        ∧ (removeOp cfg true rf st sid).1.deleteAttempts
            = st.deleteAttempts ++ [(Backend.db, sid)])
    ∧ (cfg.useDb = true → cfg.useRedis = true →
        (removeOp cfg false true st sid).2 = some Backend.redis
        ∧ (removeOp cfg false true st sid).1.deleteAttempts
            = st.deleteAttempts
              ++ [(Backend.db, sid), (Backend.redis, buildRedisKey cfg.ns sid)]) := by
  refine ⟨persistOp_noThrow cfg t df rf st sid, ?_, ?_, ?_, ?_⟩
  · intro hdb hdf hs hlive
    have hen : (cfg.useDb || cfg.useRedis) = true := by simp [hdb]
    rw [persistOp_errorLog_eq cfg t df rf st sid s hen hs hlive, hdb, hdf]
    simp
  · intro hrd hrf hs hlive
    have hen : (cfg.useDb || cfg.useRedis) = true := by simp [hrd]
    rw [persistOp_errorLog_eq cfg t df rf st sid s hen hs hlive, hrd, hrf]
    simp
  · intro hdb
    constructor <;> simp [removeOp, hdb]
  · intro hdb hrd
    constructor <;> simp [removeOp, hdb, hrd]

/-- Concrete instance of the amended claim C5: a failing sqlite write at
persist time is logged, not thrown; a failing sqlite delete in `remove`
is thrown. -/
theorem persist_failures_swallowed_witness :
    (persistOp ⟨true, true, "ns"⟩ 1000 true false
        { initState with sessions := [("a", ⟨"a", 5000, "p"⟩)] } "a").2 = none
    ∧ (Backend.db, "a") ∈ (persistOp ⟨true, true, "ns"⟩ 1000 true false
        { initState with sessions := [("a", ⟨"a", 5000, "p"⟩)] } "a").1.errorLog
    ∧ (removeOp ⟨true, true, "ns"⟩ true false
        { initState with sessions := [("a", ⟨"a", 5000, "p"⟩)] } "a").2
      = some Backend.db := by
  have h := persist_failures_swallowed ⟨true, true, "ns"⟩ 1000 true false
    { initState with sessions := [("a", ⟨"a", 5000, "p"⟩)] } "a" ⟨"a", 5000, "p"⟩
  exact ⟨h.1, h.2.1 rfl rfl (by decide) (by decide), (h.2.2.2.1 rfl).1⟩

theorem find?_timer_of_mem {cfg : Config} {st : ModelState} (h : RegOk cfg st)
    {tm : Timer} (hm : tm ∈ st.timers) :
    st.timers.find? (fun x => x.tid == tm.tid) = some tm := by
  cases hf : st.timers.find? (fun x => x.tid == tm.tid) with
  | none =>
    have hc := List.find?_eq_none.mp hf tm hm
    simp at hc
  | some tm' =>
    have h1 : tm' ∈ st.timers := List.mem_of_find?_eq_some hf
    have h2 : tm'.tid = tm.tid := by
      have := List.find?_some hf
      simpa using this
    rw [timer_eq_of_tid_eq h.2.2.1 h1 hm h2]

/-- The fold of a burst of `upsert` calls, in call order. -/
def foldUpserts (cfg : Config) (burst : List (Int × ISession)) (st : ModelState) :
    ModelState :=
  burst.foldl (fun acc p => upsertOp cfg p.1 acc p.2) st

/-- A burst of upserts all landing within each other's quiet period (no
timer fires in between, as each call cancels and reschedules), after
which the single surviving timer for the id fires at its own scheduled
time with healthy backends. -/
def burstThenFire (cfg : Config) (burst : List (Int × ISession)) (id : String)
    (st : ModelState) : ModelState :=
  let st1 := foldUpserts cfg burst st
  match lookupL st1.persistTimeouts id with
  | none => st1
  | some tid =>
    match st1.timers.find? (fun x => x.tid == tid) with
    | none => st1
    | some tm => fireOp cfg tm.fireAt tid false false st1

theorem foldUpserts_spec (cfg : Config) (id : String)
    (hen : (cfg.useDb || cfg.useRedis) = true) :
    ∀ (burst : List (Int × ISession)) (pl : Int × ISession) (st : ModelState),
      burst.getLast? = some pl →
      (∀ p ∈ burst, (p.2 : ISession).id = id) →
      RegOk cfg st →
      RegOk cfg (foldUpserts cfg burst st)
      ∧ lookupL (foldUpserts cfg burst st).sessions id = some pl.2
      ∧ lookupL (foldUpserts cfg burst st).persistTimeouts id
          = some ((foldUpserts cfg burst st).nextTid - 1)
      ∧ ({ tid := (foldUpserts cfg burst st).nextTid - 1, sid := id,
           fireAt := pl.1 + 1000 } : Timer) ∈ (foldUpserts cfg burst st).timers
      ∧ (foldUpserts cfg burst st).writes = st.writes := by
  intro burst
  induction burst with
  | nil =>
    intro pl st hl
    simp [List.getLast?] at hl
  | cons p rest ih =>
    intro pl st hlast hids hreg
    cases rest with
    | nil =>
      have hpl : p = pl := by
        rw [List.getLast?_singleton] at hlast
        exact Option.some.inj hlast
      subst hpl
      have hpid : (p.2 : ISession).id = id := hids p (List.mem_cons_self p [])
      have hup := upsertOp_enabled cfg p.1 st p.2 hen
      refine ⟨regOk_upsertOp cfg p.1 st p.2 hreg, ?_, ?_, ?_, ?_⟩
      · show lookupL (upsertOp cfg p.1 st p.2).sessions id = some p.2
        rw [upsertOp_sessions, ← hpid]
        exact lookupL_insertL_self _ _ _
      · show lookupL (upsertOp cfg p.1 st p.2).persistTimeouts id
            = some ((upsertOp cfg p.1 st p.2).nextTid - 1)
        rw [hup]
        show lookupL (insertL st.persistTimeouts p.2.id st.nextTid) id
            = some (st.nextTid + 1 - 1)
        rw [Nat.add_sub_cancel, ← hpid]
        exact lookupL_insertL_self _ _ _
      · show (⟨(upsertOp cfg p.1 st p.2).nextTid - 1, id, p.1 + 1000⟩ : Timer)
          ∈ (upsertOp cfg p.1 st p.2).timers
        rw [hup]
        show (⟨st.nextTid + 1 - 1, id, p.1 + 1000⟩ : Timer)
          ∈ (match lookupL st.persistTimeouts p.2.id with
              | some tid => st.timers.filter (fun (x : Timer) => decide (x.tid ≠ tid))
              | none => st.timers)
            ++ [(⟨st.nextTid, p.2.id, p.1 + 1000⟩ : Timer)]
        rw [Nat.add_sub_cancel, hpid]
        exact List.mem_append_right _ (List.mem_singleton_self _)
      · show (upsertOp cfg p.1 st p.2).writes = st.writes
        exact upsertOp_writes cfg p.1 st p.2
    | cons q rest' =>
      have hlast' : (q :: rest').getLast? = some pl := by
        rw [← List.getLast?_cons_cons]
        exact hlast
      have hids' : ∀ p' ∈ (q :: rest'), (p'.2 : ISession).id = id := fun p' hp' =>
        hids p' (List.mem_cons_of_mem p hp')
      have hres := ih pl (upsertOp cfg p.1 st p.2) hlast' hids'
        (regOk_upsertOp cfg p.1 st p.2 hreg)
      refine ⟨hres.1, hres.2.1, hres.2.2.1, hres.2.2.2.1, ?_⟩
      show (foldUpserts cfg (q :: rest') (upsertOp cfg p.1 st p.2)).writes = st.writes
      rw [hres.2.2.2.2]
      exact upsertOp_writes cfg p.1 st p.2

/-- Claim C1: a nonempty burst of `upsert` calls for one id, each landing
before the previous call's timer fires (so each cancels and reschedules),
followed by the single surviving timer firing at its scheduled time (the
last upsert's time plus the 1000ms quiet period, assuming the record is
then still unexpired): exactly one flush happens, appending exactly one
write per enabled backend, all carrying the value of the LAST upsert in
the burst — the persist task re-reads the current store value at fire
time rather than the value captured at schedule time. -/
theorem debounced_burst_single_write (cfg : Config) (st0 : ModelState)
    (id : String) (burst : List (Int × ISession)) (pl : Int × ISession)
    (hlast : burst.getLast? = some pl)
    (hids : ∀ p ∈ burst, (p.2 : ISession).id = id)
    (hen : (cfg.useDb || cfg.useRedis) = true)
    (hreg : RegOk cfg st0)
    (hlive : ¬ ((pl.2 : ISession).expiresAt - (pl.1 + 1000) ≤ 0)) :
    (burstThenFire cfg burst id st0).writes
      = st0.writes ++ persistWrites cfg id pl.2 (pl.1 + 1000) := by
  obtain ⟨hreg1, hsess, hregid, htm, hw⟩ :=
    foldUpserts_spec cfg id hen burst pl st0 hlast hids hreg
  have hfind := find?_timer_of_mem hreg1 htm
  have hbtf : burstThenFire cfg burst id st0
      = fireOp cfg (pl.1 + 1000) ((foldUpserts cfg burst st0).nextTid - 1)
          false false (foldUpserts cfg burst st0) := by
    unfold burstThenFire
    simp only [hregid, hfind]
  rw [hbtf,
    fireOp_eq_some cfg (pl.1 + 1000) ((foldUpserts cfg burst st0).nextTid - 1)
      false false (foldUpserts cfg burst st0) _ hfind]
  show (persistOp cfg (pl.1 + 1000) false false
      { foldUpserts cfg burst st0 with
        timers := (foldUpserts cfg burst st0).timers.filter
          (fun x => decide (x.tid ≠ ((foldUpserts cfg burst st0).nextTid - 1))) }
      id).1.writes
    = st0.writes ++ persistWrites cfg id pl.2 (pl.1 + 1000)
  rw [persistOp_success_writes cfg (pl.1 + 1000)
      { foldUpserts cfg burst st0 with
        timers := (foldUpserts cfg burst st0).timers.filter
          (fun x => decide (x.tid ≠ ((foldUpserts cfg burst st0).nextTid - 1))) }
      id pl.2 hen hsess hlive]
  show (foldUpserts cfg burst st0).writes ++ persistWrites cfg id pl.2 (pl.1 + 1000)
    = st0.writes ++ persistWrites cfg id pl.2 (pl.1 + 1000)
  rw [hw]

/-- Concrete instance of claim C1: two rapid upserts for "a" (values with
expiries 3000 and 9000), timer fires at 1500 — exactly one write per
backend, both carrying the second value, redis with `PX 7500`. -/
theorem debounced_burst_single_write_witness :
    ([((0 : Int), (⟨"a", 3000, "p"⟩ : ISession)),
      ((500 : Int), (⟨"a", 9000, "q"⟩ : ISession))].getLast?
        = some ((500 : Int), (⟨"a", 9000, "q"⟩ : ISession)))
    ∧ (burstThenFire ⟨true, true, "ns"⟩
        [((0 : Int), ⟨"a", 3000, "p"⟩), ((500 : Int), ⟨"a", 9000, "q"⟩)]
        "a" initState).writes
      = [] ++ persistWrites ⟨true, true, "ns"⟩ "a" ⟨"a", 9000, "q"⟩ (500 + 1000) := by
  refine ⟨by decide, ?_⟩
  exact debounced_burst_single_write ⟨true, true, "ns"⟩ initState "a"
    [((0 : Int), ⟨"a", 3000, "p"⟩), ((500 : Int), ⟨"a", 9000, "q"⟩)]
    ((500 : Int), ⟨"a", 9000, "q"⟩) (by decide) (by decide) (by decide)
    (regOk_initState _) (by decide)

end SessionModel
